import Mathlib

/-!
# Verification of the jaxns constrained-sampling engine

Shallow embedding of `src/jaxns/samplers/uni_slice_sampler.py` and
`src/jaxns/likelihood_samplers/multi_ellipsoidal_samplers.py`.

Modelling conventions:
* Floating-point scalars are modelled as `XQ`: exact rationals extended with
  `nan`, `-inf`, `+inf`, with IEEE-754 comparison/arithmetic structure
  (comparisons with `nan` are false, `0 * inf = nan`, division by zero gives a
  signed infinity or `nan`, ...).  Rounding of finite values is idealised as
  exact rational arithmetic.
* Points in the unit cube are `List XQ`.
* Integer counters (`int_type` arrays that are only ever incremented from 0)
  are `Nat`.
* `jax.random` primitives and `jnp.linalg.norm` are external collaborators
  and are abstracted as an `Env` record of pure deterministic functions of the
  PRNG key, exactly as the library guarantees.
* `jax.lax.while_loop` is unbounded; it is embedded as a fuel-indexed loop
  `whileLoop` returning `Option`: `some` is returned exactly when the loop
  reached its exit condition within the given fuel, so every theorem about a
  `some` result is a theorem about a terminating run of the source loop.
-/

/-- IEEE-style extended rational: `nan`, `-inf`, `+inf` or a finite rational. -/
inductive XQ where
  | nan : XQ
  | ninf : XQ
  | pinf : XQ
  | fin : ℚ → XQ
deriving DecidableEq, Repr

namespace XQ

/-- IEEE negation. -/
def xneg : XQ → XQ
  | nan => nan
  | ninf => pinf
  | pinf => ninf
  | fin q => fin (-q)

/-- IEEE addition. -/
def xadd : XQ → XQ → XQ
  | nan, _ => nan
  | _, nan => nan
  | pinf, ninf => nan
  | ninf, pinf => nan
  | pinf, _ => pinf
  | _, pinf => pinf
  | ninf, _ => ninf
  | _, ninf => ninf
  | fin a, fin b => fin (a + b)

/-- IEEE subtraction. -/
def xsub (a b : XQ) : XQ := xadd a (xneg b)

/-- IEEE multiplication (`0 * ±inf = nan`). -/
def xmul : XQ → XQ → XQ
  | nan, _ => nan
  | _, nan => nan
  | pinf, pinf => pinf
  | pinf, ninf => ninf
  | ninf, pinf => ninf
  | ninf, ninf => pinf
  | pinf, fin b => if b = 0 then nan else if 0 < b then pinf else ninf
  | ninf, fin b => if b = 0 then nan else if 0 < b then ninf else pinf
  | fin a, pinf => if a = 0 then nan else if 0 < a then pinf else ninf
  | fin a, ninf => if a = 0 then nan else if 0 < a then ninf else pinf
  | fin a, fin b => fin (a * b)

/-- IEEE division (divisor zero is treated as positive zero, as produced by
the unit-cube coordinates in the source). -/
def xdiv : XQ → XQ → XQ
  | nan, _ => nan
  | _, nan => nan
  | pinf, pinf => nan
  | pinf, ninf => nan
  | ninf, pinf => nan
  | ninf, ninf => nan
  | pinf, fin b => if b = 0 then pinf else if 0 < b then pinf else ninf
  | ninf, fin b => if b = 0 then ninf else if 0 < b then ninf else pinf
  | fin _, pinf => fin 0
  | fin _, ninf => fin 0
  | fin a, fin b =>
      if b = 0 then (if a = 0 then nan else if 0 < a then pinf else ninf)
      else fin (a / b)

/-- IEEE `<` (false whenever an operand is `nan`). -/
def xlt : XQ → XQ → Bool
  | nan, _ => false
  | _, nan => false
  | ninf, ninf => false
  | ninf, _ => true
  | _, ninf => false
  | pinf, _ => false
  | fin _, pinf => true
  | fin a, fin b => decide (a < b)

/-- IEEE `≤` (false whenever an operand is `nan`). -/
def xle : XQ → XQ → Bool
  | nan, _ => false
  | _, nan => false
  | ninf, _ => true
  | _, ninf => false
  | _, pinf => true
  | pinf, fin _ => false
  | fin a, fin b => decide (a ≤ b)

/-- IEEE `==` (`nan` is not equal to anything, including itself). -/
def xeqb : XQ → XQ → Bool
  | nan, _ => false
  | _, nan => false
  | ninf, ninf => true
  | pinf, pinf => true
  | fin a, fin b => decide (a = b)
  | _, _ => false

/-- `jnp.minimum` (propagates `nan`, like the reduction used by `jnp.min`). -/
def xmin : XQ → XQ → XQ
  | nan, _ => nan
  | _, nan => nan
  | a, b => if xle a b then a else b

/-- `jnp.maximum` (propagates `nan`). -/
def xmax : XQ → XQ → XQ
  | nan, _ => nan
  | _, nan => nan
  | a, b => if xle a b then b else a

/-- `jnp.isfinite`. -/
def xfinite : XQ → Bool
  | fin _ => true
  | _ => false

end XQ

open XQ

/-- `jax.lax.while_loop cond body init`, run with explicit fuel: `some c`
is returned exactly when the loop exits (reaches `cond = false`) within
`fuel` iterations, and `c` is then the exact value the source loop returns. -/
def whileLoop (cond : α → Bool) (body : α → α) : ℕ → α → Option α
  | 0, c => if cond c then none else some c
  | fuel + 1, c => if cond c then whileLoop cond body fuel (body c) else some c

theorem whileLoop_exit (cond : α → Bool) (body : α → α) (fuel : ℕ) (c c₁ : α)
    (h : whileLoop cond body fuel c = some c₁) : cond c₁ = false := by
  induction fuel generalizing c with
  | zero =>
    by_cases hc : cond c
    · simp [whileLoop, hc] at h
    · simp [whileLoop, hc] at h
      subst h
      exact Bool.not_eq_true _ ▸ (by simpa using hc)
  | succ n ih =>
    by_cases hc : cond c
    · rw [whileLoop, if_pos hc] at h
      exact ih _ h
    · rw [whileLoop, if_neg hc] at h
      cases h
      exact Bool.not_eq_true _ ▸ (by simpa using hc)

theorem whileLoop_invariant (cond : α → Bool) (body : α → α) (P : α → Prop)
    (hbody : ∀ x, P x → cond x = true → P (body x)) (fuel : ℕ) (c c₁ : α)
    (hinit : P c) (h : whileLoop cond body fuel c = some c₁) : P c₁ := by
  induction fuel generalizing c with
  | zero =>
    by_cases hc : cond c
    · simp [whileLoop, hc] at h
    · simp [whileLoop, hc] at h
      exact h ▸ hinit
  | succ n ih =>
    by_cases hc : cond c
    · rw [whileLoop, if_pos hc] at h
      exact ih _ (hbody c hinit hc) h
    · rw [whileLoop, if_neg hc] at h
      cases h
      exact hinit

/-- External collaborators of the samplers: the `jax.random` primitives and
`jnp.linalg.norm`, abstracted as pure deterministic functions of the PRNG key
(exactly the guarantee JAX provides).  `splitN_length` records the shape
guarantee of `jax.random.split(key, n)`. -/
structure Env (Key : Type) where
  split2 : Key → Key × Key
  split3 : Key → Key × Key × Key
  splitN : Key → ℕ → List Key
  splitN_length : ∀ k n, (splitN k n).length = n
  uniform : Key → XQ → XQ → XQ
  uniform01 : Key → ℚ
  normal : Key → ℕ → List XQ
  norm : List XQ → XQ

/-- Modelled from the spec: `Model.forward(U) → log_L` is a deterministic
scalar likelihood (§6); `grad` is the oracle for `jax.grad(model.forward)`
used by gradient-slice mode (an external JAX transform of `forward`). -/
structure SliceModel where
  forward : List XQ → XQ
  grad : List XQ → List XQ

/-- Modelled from the spec (§3): `Sample` record of
`jaxns.internals.types` (not under `src/`). -/
structure Sample where
  U_sample : List XQ
  log_L_constraint : XQ
  log_L : XQ
  num_likelihood_evaluations : ℕ
deriving DecidableEq, Repr

/-- Modelled from the spec (§3): `SeedPoint` record of
`jaxns.samplers.bases` (not under `src/`). -/
structure SeedPoint where
  U0 : List XQ
  log_L0 : XQ
deriving DecidableEq, Repr

/-- `_sample_direction(n_key, ndim)` of `uni_slice_sampler.py`:
for `ndim = 1` the fixed unit direction, otherwise a normal draw divided by
its norm. -/
def sample_direction {Key : Type} (env : Env Key) (n_key : Key) (ndim : ℕ) :
    List XQ :=
  if ndim = 1 then [XQ.fin 1]
  else
    let direction := env.normal n_key ndim
    let nrm := env.norm direction
    direction.map (fun x => xdiv x nrm)

/-- `_slice_bounds(point_U0, direction)` of `uni_slice_sampler.py`:
`t1 = (1 - U0)/direction`, `t0 = -U0/direction`, then per-sign filtered
`jnp.min`/`jnp.max` reductions (the `jnp.where` masks replace the
wrong-signed entries by `±inf` before reducing). -/
def slice_bounds (point_U0 direction : List XQ) : XQ × XQ :=
  let t1 := List.zipWith (fun u d => xdiv (xsub (XQ.fin 1) u) d) point_U0 direction
  let t1_right := (t1.map (fun t => if xle (XQ.fin 0) t then t else XQ.pinf)).foldr xmin XQ.pinf
  let t1_left := (t1.map (fun t => if xle t (XQ.fin 0) then t else XQ.ninf)).foldr xmax XQ.ninf
  let t0 := List.zipWith (fun u d => xdiv (xneg u) d) point_U0 direction
  let t0_right := (t0.map (fun t => if xle (XQ.fin 0) t then t else XQ.pinf)).foldr xmin XQ.pinf
  let t0_left := (t0.map (fun t => if xle t (XQ.fin 0) then t else XQ.ninf)).foldr xmax XQ.ninf
  let right_bound := xmin t0_right t1_right
  let left_bound := xmax t0_left t1_left
  (left_bound, right_bound)

/-- `_pick_point_in_interval(key, point_U0, direction, left, right)` of
`uni_slice_sampler.py`: `t = uniform(key, left, right)`,
`point_U = point_U0 + t * direction`. -/
def pick_point_in_interval {Key : Type} (env : Env Key) (key : Key)
    (point_U0 direction : List XQ) (left right : XQ) : List XQ × XQ :=
  let t := env.uniform key left right
  let point_U := List.zipWith (fun u d => xadd u (xmul t d)) point_U0 direction
  (point_U, t)

/-- `_shrink_interval(key, t, left, right, log_L_proposal, log_L_constraint,
log_L0, midpoint_shrink)` of `uni_slice_sampler.py`.  The three
likelihood-valued arguments are part of the source signature and are unused
by the source body. -/
def shrink_interval {Key : Type} (env : Env Key) (key : Key)
    (t left right : XQ)
    (log_L_proposal log_L_constraint log_L0 : XQ)
    (midpoint_shrink : Bool) : XQ × XQ :=
  let left := if xlt t (XQ.fin 0) then t else left
  let right := if xlt (XQ.fin 0) t then t else right
  if midpoint_shrink then
    let alpha := env.uniform01 key
    let left := if xlt t (XQ.fin 0) then xmul (XQ.fin alpha) left else left
    let right := if xlt (XQ.fin 0) t then xmul (XQ.fin alpha) right else right
    (left, right)
  else
    (left, right)

/-- The loop carry of `_new_proposal` (`Carry` NamedTuple in the source). -/
structure SliceCarry (Key : Type) where
  key : Key
  direction : List XQ
  left : XQ
  right : XQ
  t : XQ
  point_U : List XQ
  log_L : XQ
  num_likelihood_evaluations : ℕ
deriving Repr

/-- The `cond` closure of `_new_proposal`: continue while not
(bracket collapse `∨` satisfaction `∨` plateau tie-break).  `eps` is
`jnp.finfo(dtype).eps`, a parameter of the embedding. -/
def proposal_cond {Key : Type} (eps : ℚ) (log_L_constraint log_L0 : XQ)
    (carry : SliceCarry Key) : Bool :=
  let close_to_zero_interval := xle (xsub carry.right carry.left) (XQ.fin (2 * eps))
  let satisfaction := xlt log_L_constraint carry.log_L
  let lesser_satisfaction := xeqb log_L0 log_L_constraint && xeqb carry.log_L log_L_constraint
  let done := (close_to_zero_interval || satisfaction) || lesser_satisfaction
  !done

/-- The `body` closure of `_new_proposal`.  The second component of the state
is instrumentation only (not part of the source carry): it counts the actual
calls of `model.forward` performed so far in this proposal. -/
def proposal_body {Key : Type} (env : Env Key) (model : SliceModel)
    (seed_point : SeedPoint) (midpoint_shrink : Bool) (log_L_constraint : XQ)
    (st : SliceCarry Key × ℕ) : SliceCarry Key × ℕ :=
  let carry := st.1
  let (key, t_key, shrink_key) := env.split3 carry.key
  let (left, right) := shrink_interval env shrink_key carry.t carry.left carry.right
    carry.log_L log_L_constraint seed_point.log_L0 midpoint_shrink
  let (point_U, t) := pick_point_in_interval env t_key seed_point.U0 carry.direction left right
  let log_L := model.forward point_U
  let num_likelihood_evaluations := carry.num_likelihood_evaluations + 1
  (⟨key, carry.direction, left, right, t, point_U, log_L, num_likelihood_evaluations⟩,
    st.2 + 1)

/-- `_new_proposal(key, seed_point, midpoint_shrink, perfect, gradient_slice,
log_L_constraint, model)` of `uni_slice_sampler.py`, returning the full exit
carry of the `lax.while_loop` (plus the instrumented count of actual
`model.forward` calls).  `none` models either fuel exhaustion of the loop or
the `NotImplementedError` raised when `perfect` is false. -/
def new_proposal_carry {Key : Type} (env : Env Key) (eps : ℚ) (fuel : ℕ)
    (key : Key) (seed_point : SeedPoint)
    (midpoint_shrink perfect gradient_slice : Bool)
    (log_L_constraint : XQ) (model : SliceModel) :
    Option (SliceCarry Key × ℕ) :=
  let (key, n_key, t_key) := env.split3 key
  let init : Option (List XQ × XQ × XQ × ℕ) :=
    if gradient_slice then
      let direction := model.grad seed_point.U0
      let nrm := env.norm direction
      let direction := direction.map (fun x => xdiv x nrm)
      let direction :=
        if (xeqb nrm (XQ.fin 0) || !xfinite nrm) then
          sample_direction env n_key seed_point.U0.length
        else direction
      let num_likelihood_evaluations := 1
      let bounds := slice_bounds seed_point.U0 direction
      let right := bounds.2
      let left := XQ.fin 0
      some (direction, left, right, num_likelihood_evaluations)
    else
      let direction := sample_direction env n_key seed_point.U0.length
      let num_likelihood_evaluations := 0
      if perfect then
        let bounds := slice_bounds seed_point.U0 direction
        some (direction, bounds.1, bounds.2, num_likelihood_evaluations)
      else
        none
  init.bind (fun dlrn =>
    let direction := dlrn.1
    let left := dlrn.2.1
    let right := dlrn.2.2.1
    let num_likelihood_evaluations := dlrn.2.2.2
    let pick := pick_point_in_interval env t_key seed_point.U0 direction left right
    let point_U := pick.1
    let t := pick.2
    let log_L := model.forward point_U
    let init_carry : SliceCarry Key :=
      ⟨key, direction, left, right, t, point_U, log_L, num_likelihood_evaluations⟩
    whileLoop (fun st => proposal_cond eps log_L_constraint seed_point.log_L0 st.1)
      (proposal_body env model seed_point midpoint_shrink log_L_constraint)
      fuel (init_carry, 1))

/-- `_new_proposal` as returned by the source (`point_U, log_L,
num_likelihood_evaluations`), together with the instrumented count of actual
`model.forward` calls performed. -/
def new_proposal {Key : Type} (env : Env Key) (eps : ℚ) (fuel : ℕ)
    (key : Key) (seed_point : SeedPoint)
    (midpoint_shrink perfect gradient_slice : Bool)
    (log_L_constraint : XQ) (model : SliceModel) :
    Option (List XQ × XQ × ℕ × ℕ) :=
  (new_proposal_carry env eps fuel key seed_point midpoint_shrink perfect gradient_slice
      log_L_constraint model).map
    (fun st => (st.1.point_U, st.1.log_L, st.1.num_likelihood_evaluations, st.2))

/-- Modelled from the spec: `cumulative_op_static`
(`jaxns.internals.cumulative_ops`, not under `src/`) is a cumulative scan
(§4.2 "a cumulative scan, not independent chains"): it threads `init`
through `op` over `xs` and returns the final carry together with the list of
every intermediate carry, one per element of `xs`.  The `Option` propagates
the fuel artifact of the embedded bounded loops. -/
def cumulative_op_static {S K : Type} (op : S → K → Option S) (init : S) :
    List K → Option (S × List S)
  | [] => some (init, [])
  | x :: xs => do
    let s ← op init x
    let res ← cumulative_op_static op s xs
    pure (res.1, s :: res.2)

theorem cumulative_op_static_length {S K : Type} (op : S → K → Option S)
    (init : S) (xs : List K) (fin : S) (cs : List S)
    (h : cumulative_op_static op init xs = some (fin, cs)) :
    cs.length = xs.length := by
  induction xs generalizing init cs fin with
  | nil =>
    simp only [cumulative_op_static, Option.some.injEq, Prod.mk.injEq] at h
    rw [← h.2]
    rfl
  | cons x xs ih =>
    simp only [cumulative_op_static, Option.pure_def, Option.bind_eq_bind,
      Option.bind_eq_some, Option.some.injEq, Prod.mk.injEq] at h
    obtain ⟨s, hs, res, hres, hfin, hcs⟩ := h
    rw [← hcs]
    simp only [List.length_cons]
    rw [ih s res.1 res.2 hres]

theorem cumulative_op_static_step {S K : Type} (op : S → K → Option S)
    (init : S) (xs : List K) (fin : S) (cs : List S)
    (h : cumulative_op_static op init xs = some (fin, cs)) :
    ∀ i (hi : i < cs.length) (hx : i < xs.length),
      op ((init :: cs).get ⟨i, Nat.lt_succ_of_lt hi⟩) (xs.get ⟨i, hx⟩) =
        some (cs.get ⟨i, hi⟩) := by
  induction xs generalizing init cs fin with
  | nil =>
    intro i hi hx
    exact absurd hx (Nat.not_lt_zero i)
  | cons x xs ih =>
    simp only [cumulative_op_static, Option.pure_def, Option.bind_eq_bind,
      Option.bind_eq_some, Option.some.injEq, Prod.mk.injEq] at h
    obtain ⟨s, hs, res, hres, hfin, hcs⟩ := h
    subst hcs
    intro i hi hx
    match i with
    | 0 => simpa using hs
    | j + 1 =>
      have hj : j < res.2.length := by simpa using hi
      have hxj : j < xs.length := by simpa using hx
      simpa using ih s res.1 res.2 hres j hj hxj

theorem cumulative_op_static_final {S K : Type} (op : S → K → Option S)
    (init : S) (xs : List K) (fin : S) (cs : List S)
    (h : cumulative_op_static op init xs = some (fin, cs)) :
    fin = (init :: cs).getLast (List.cons_ne_nil _ _) := by
  induction xs generalizing init cs fin with
  | nil =>
    simp only [cumulative_op_static, Option.some.injEq, Prod.mk.injEq] at h
    rw [← h.2, ← h.1]
    rfl
  | cons x xs ih =>
    simp only [cumulative_op_static, Option.pure_def, Option.bind_eq_bind,
      Option.bind_eq_some, Option.some.injEq, Prod.mk.injEq] at h
    obtain ⟨s, hs, res, hres, hfin, hcs⟩ := h
    subst hcs
    rw [← hfin, List.getLast_cons (List.cons_ne_nil _ _)]
    exact ih s res.1 res.2 hres

/-- The `propose_op` closure of `UniDimSliceSampler.get_sample_from_seed`,
on the instrumented state `(sample, actual forward calls so far)`: one slice
proposal seeded at the previous sample, with the per-proposal evaluation
count added to the previous sample's count. -/
def propose_op {Key : Type} (env : Env Key) (eps : ℚ) (fuel : ℕ)
    (midpoint_shrink perfect gradient_slice : Bool)
    (log_L_constraint : XQ) (model : SliceModel)
    (st : Sample × ℕ) (key : Key) : Option (Sample × ℕ) :=
  (new_proposal env eps fuel key ⟨st.1.U_sample, st.1.log_L⟩
      midpoint_shrink perfect gradient_slice log_L_constraint model).map
    (fun r =>
      (⟨r.1, log_L_constraint, r.2.1,
        r.2.2.1 + st.1.num_likelihood_evaluations⟩, st.2 + r.2.2.2))

/-- `UniDimSliceSampler.get_sample_from_seed(key, seed_point,
log_L_constraint, sampler_state)`: `num_slices` chained proposals threaded
through `cumulative_op_static` from the seed, the last
`num_phantom_save` pre-terminal states (`cumulative_samples[-(p+1):-1]`)
retained as phantoms, and the accumulated evaluation counter apportioned as
in the source.  The extra `ℕ` returned is the instrumented total of actual
`model.forward` calls in the invocation. -/
def get_sample_from_seed {Key : Type} (env : Env Key) (eps : ℚ) (fuel : ℕ)
    (num_slices num_phantom_save : ℕ)
    (midpoint_shrink perfect gradient_slice : Bool) (model : SliceModel)
    (key : Key) (seed_point : SeedPoint) (log_L_constraint : XQ) :
    Option (Sample × List Sample × ℕ) :=
  let init_sample : Sample := ⟨seed_point.U0, log_L_constraint, seed_point.log_L0, 0⟩
  (cumulative_op_static
      (propose_op env eps fuel midpoint_shrink perfect gradient_slice log_L_constraint model)
      (init_sample, 0) (env.splitN key num_slices)).map (fun res =>
    let final_sample := res.1.1
    let actual := res.1.2
    let cumulative_samples := res.2.map Prod.fst
    let phantom_samples :=
      (cumulative_samples.take (cumulative_samples.length - 1)).drop
        (cumulative_samples.length - (num_phantom_save + 1))
    let num_likelihood_evaluations_per_phantom_sample :=
      final_sample.num_likelihood_evaluations / (num_phantom_save + 1)
    let num_likelihood_evaluations_per_accepted_sample :=
      final_sample.num_likelihood_evaluations -
        num_likelihood_evaluations_per_phantom_sample * num_phantom_save
    ({ final_sample with
        num_likelihood_evaluations := num_likelihood_evaluations_per_accepted_sample },
     phantom_samples.map
       (fun s => { s with
         num_likelihood_evaluations := num_likelihood_evaluations_per_phantom_sample }),
     actual))

/-- The configuration stored by `UniDimSliceSampler.__init__`. -/
structure UniDimSliceSamplerCfg where
  num_slices : ℤ
  num_phantom_save : ℤ
  midpoint_shrink : Bool
  perfect : Bool
  gradient_slice : Bool
deriving DecidableEq, Repr

/-- `UniDimSliceSampler.__init__`: the construction-time validation, with
`raise ValueError` modelled as `Except.error`, in source order. -/
def uniDimSliceSampler_init (num_slices num_phantom_save : ℤ)
    (midpoint_shrink perfect gradient_slice : Bool) :
    Except String UniDimSliceSamplerCfg :=
  if num_slices < 1 then .error "num_slices should be >= 1"
  else if num_phantom_save < 0 then .error "num_phantom_save should be >= 0"
  else if num_phantom_save ≥ num_slices then .error "num_phantom_save should be < num_slices"
  else
    let cfg : UniDimSliceSamplerCfg :=
      ⟨num_slices, num_phantom_save, midpoint_shrink, perfect, gradient_slice⟩
    if !cfg.perfect then .error "Only perfect slice sampler is implemented."
    else .ok cfg

/-- `UniDimSliceSampler.post_process(sample_collection, sampler_state)`:
both branches of the `perfect` test return `(sample_collection,)`.  `SC` is
the opaque `StaticStandardSampleCollection`; the 1-tuple `SamplerState` is
identified with its component. -/
def post_process {SC : Type} (perfect : Bool) (sample_collection : SC)
    (sampler_state : SC) : SC :=
  if perfect then sample_collection else sample_collection

/-- Modelled from the spec (§3): the `Sample` record of `jaxns.types`
consumed by the multi-ellipsoidal sampler (not under `src/`; its extra
fields `num_slices` and `iid` appear in the source construction). -/
structure MSample where
  point_U : List XQ
  log_L_constraint : XQ
  log_L : XQ
  num_likelihood_evaluations : ℕ
  num_slices : ℕ
  iid : Bool
deriving DecidableEq, Repr

/-- The `CarryState` NamedTuple of `MultiellipsoidalSampler.get_sample`. -/
structure MECarry (Key : Type) where
  done : Bool
  key : Key
  U : List XQ
  log_L : XQ
  log_L_constraint : XQ
  num_likelihood_evals : ℕ
deriving Repr

/-- The `body` closure of `MultiellipsoidalSampler.get_sample`.
`sample_multi_ellipsoid` is the opaque external union-of-ellipsoids sampling
primitive (already applied to the fixed `preprocess_data`). -/
def me_get_sample_body {Key : Type} (env : Env Key) (model : SliceModel)
    (efficiency_threshold : ℚ) (sample_multi_ellipsoid : Key → List XQ)
    (carry_state : MECarry Key) : MECarry Key :=
  let (key, sample_key) := env.split2 carry_state.key
  let log_L := model.forward carry_state.U
  let num_likelihood_evals := carry_state.num_likelihood_evals + 1
  let log_L_constraint :=
    if (1 : ℚ) / efficiency_threshold < (num_likelihood_evals : ℚ) then
      xsub carry_state.log_L_constraint (XQ.fin (1 / 10))
    else carry_state.log_L_constraint
  let done := xlt log_L_constraint log_L
  let U := if done then carry_state.U else sample_multi_ellipsoid sample_key
  ⟨done, key, U, log_L, log_L_constraint, num_likelihood_evals⟩

/-- `MultiellipsoidalSampler.get_sample(key, log_L_constraint, live_points,
preprocess_data)` of `multi_ellipsoidal_samplers.py`. -/
def me_get_sample {Key : Type} (env : Env Key) (fuel : ℕ) (model : SliceModel)
    (efficiency_threshold : ℚ) (sample_multi_ellipsoid : Key → List XQ)
    (key : Key) (log_L_constraint : XQ) : Option MSample :=
  let (key, sample_key) := env.split2 key
  let init_carry_state : MECarry Key :=
    ⟨false, key, sample_multi_ellipsoid sample_key, log_L_constraint,
      log_L_constraint, 0⟩
  (whileLoop (fun s => !s.done)
      (me_get_sample_body env model efficiency_threshold sample_multi_ellipsoid)
      fuel init_carry_state).map
    (fun c => ⟨c.U, c.log_L_constraint, c.log_L, c.num_likelihood_evals, 0, true⟩)

/-- A concrete deterministic environment over `Key := ℕ`, used to evaluate
the embedding on explicit inputs (`jax.random` draws replaced by fixed
deterministic values; `uniform` returns the point two fifths of the way
through the requested interval, which lies in `[minval, maxval)`). -/
def testEnv : Env ℕ where
  split2 k := (2 * k + 1, 2 * k + 2)
  split3 k := (3 * k + 1, 3 * k + 2, 3 * k + 3)
  splitN k n := (List.range n).map (fun i => k + i + 1)
  splitN_length := by intro k n; simp
  uniform _ l r := xadd l (xmul (xsub r l) (XQ.fin (2 / 5)))
  uniform01 _ := 1 / 2
  normal _ n := List.replicate n (XQ.fin 1)
  norm _ := XQ.fin 1

/-- A model with constant likelihood `c` (its gradient oracle is the zero
vector, unused by the non-gradient configurations it is applied to). -/
def constModel (c : XQ) : SliceModel where
  forward _ := c
  grad U := U.map (fun _ => XQ.fin 0)

/-- C6: Configuration error behaviour: `UniDimSliceSampler.__init__`
raises exactly when `num_slices < 1`, `num_phantom_save < 0`,
`num_phantom_save ≥ num_slices`, or a non-"perfect" bracket mode is
requested; every other configuration constructs successfully. -/
theorem uniDimSliceSampler_init_ok_iff (num_slices num_phantom_save : ℤ)
    (midpoint_shrink perfect gradient_slice : Bool) :
    (uniDimSliceSampler_init num_slices num_phantom_save midpoint_shrink
        perfect gradient_slice).isOk = true ↔
      (1 ≤ num_slices ∧ 0 ≤ num_phantom_save ∧
        num_phantom_save < num_slices ∧ perfect = true) := by
  unfold uniDimSliceSampler_init
  constructor
  · intro h
    by_cases h1 : num_slices < 1
    · rw [if_pos h1] at h; cases h
    rw [if_neg h1] at h
    by_cases h2 : num_phantom_save < 0
    · rw [if_pos h2] at h; cases h
    rw [if_neg h2] at h
    by_cases h3 : num_phantom_save ≥ num_slices
    · rw [if_pos h3] at h; cases h
    rw [if_neg h3] at h
    cases hp : perfect with
    | false => rw [hp] at h; cases h
    | true => exact ⟨by omega, by omega, by omega, rfl⟩
  · rintro ⟨ha, hb, hc, hp⟩
    rw [if_neg (by omega), if_neg (by omega), if_neg (by omega), hp]
    rfl

/-- C9: Likelihood-magnitude noninterference of the shrink step: the bounds
returned by `_shrink_interval` are identical for any two calls agreeing on
`key`, `t`, `left`, `right` and `midpoint_shrink`, whatever the three
likelihood-valued arguments are. -/
theorem shrink_interval_noninterference {Key : Type} (env : Env Key)
    (key : Key) (t left right : XQ) (midpoint_shrink : Bool)
    (lp₁ lc₁ l0₁ lp₂ lc₂ l0₂ : XQ) :
    shrink_interval env key t left right lp₁ lc₁ l0₁ midpoint_shrink =
      shrink_interval env key t left right lp₂ lc₂ l0₂ midpoint_shrink := rfl

/-- C10: `UniDimSliceSampler.post_process` returns exactly the sample
collection it was given, whatever the `perfect` flag and whatever the
incoming sampler state: post-processing never modifies sampler state. -/
theorem post_process_noop {SC : Type} (perfect : Bool)
    (sample_collection sampler_state : SC) :
    post_process perfect sample_collection sampler_state = sample_collection := by
  cases perfect <;> rfl

/-- C8: Determinism: with a fixed environment of deterministic PRNG
primitives and a deterministic model (all models of the embedding are
deterministic functions), two invocations of
`UniDimSliceSampler.get_sample_from_seed` (resp.
`MultiellipsoidalSampler.get_sample`) with identical key, seed point,
threshold and state produce identical output, including all phantom samples
and all count fields. -/
theorem sampler_determinism {Key : Type} (env : Env Key) :
    (∀ (eps : ℚ) (fuel num_slices num_phantom_save : ℕ)
       (midpoint_shrink perfect gradient_slice : Bool) (model : SliceModel)
       (key₁ key₂ : Key) (seed₁ seed₂ : SeedPoint) (c₁ c₂ : XQ),
       key₁ = key₂ → seed₁ = seed₂ → c₁ = c₂ →
       get_sample_from_seed env eps fuel num_slices num_phantom_save
           midpoint_shrink perfect gradient_slice model key₁ seed₁ c₁ =
         get_sample_from_seed env eps fuel num_slices num_phantom_save
           midpoint_shrink perfect gradient_slice model key₂ seed₂ c₂) ∧
    (∀ (fuel : ℕ) (model : SliceModel) (efficiency_threshold : ℚ)
       (sample_multi_ellipsoid : Key → List XQ) (key₁ key₂ : Key) (c₁ c₂ : XQ),
       key₁ = key₂ → c₁ = c₂ →
       me_get_sample env fuel model efficiency_threshold sample_multi_ellipsoid
           key₁ c₁ =
         me_get_sample env fuel model efficiency_threshold sample_multi_ellipsoid
           key₂ c₂) := by
  constructor
  · intro eps fuel n p ms pf gs model k₁ k₂ s₁ s₂ c₁ c₂ hk hs hc
    rw [hk, hs, hc]
  · intro fuel model eff sme k₁ k₂ c₁ c₂ hk hc
    rw [hk, hc]

/-- Witness for C8 at a concrete input. -/
theorem sampler_determinism_witness :
    get_sample_from_seed testEnv (1 / 8388608) 10 1 0 false true false
        (constModel (XQ.fin 1)) 0 ⟨[XQ.fin (1 / 2)], XQ.fin 1⟩ (XQ.fin 0) =
      get_sample_from_seed testEnv (1 / 8388608) 10 1 0 false true false
        (constModel (XQ.fin 1)) 0 ⟨[XQ.fin (1 / 2)], XQ.fin 1⟩ (XQ.fin 0) :=
  (sampler_determinism testEnv).1 (1 / 8388608) 10 1 0 false true false
    (constModel (XQ.fin 1)) 0 0 ⟨[XQ.fin (1 / 2)], XQ.fin 1⟩
    ⟨[XQ.fin (1 / 2)], XQ.fin 1⟩ (XQ.fin 0) (XQ.fin 0) rfl rfl rfl

theorem xle_zero_xmin (a b : XQ) (ha : xle (XQ.fin 0) a = true)
    (hb : xle (XQ.fin 0) b = true) : xle (XQ.fin 0) (xmin a b) = true := by
  cases a <;> cases b <;> simp_all [xmin, xle] <;> split_ifs <;> simp_all

theorem xle_xmax_zero (a b : XQ) (ha : xle a (XQ.fin 0) = true)
    (hb : xle b (XQ.fin 0) = true) : xle (xmax a b) (XQ.fin 0) = true := by
  cases a <;> cases b <;> simp_all [xmax, xle] <;> split_ifs <;> simp_all

theorem foldr_xmin_nonneg (l : List XQ)
    (h : ∀ x ∈ l, xle (XQ.fin 0) x = true) :
    xle (XQ.fin 0) (l.foldr xmin XQ.pinf) = true := by
  induction l with
  | nil => rfl
  | cons x xs ih =>
    exact xle_zero_xmin x _ (h x (List.mem_cons_self x xs))
      (ih (fun y hy => h y (List.mem_cons_of_mem x hy)))

theorem foldr_xmax_nonpos (l : List XQ)
    (h : ∀ x ∈ l, xle x (XQ.fin 0) = true) :
    xle (l.foldr xmax XQ.ninf) (XQ.fin 0) = true := by
  induction l with
  | nil => rfl
  | cons x xs ih =>
    exact xle_xmax_zero x _ (h x (List.mem_cons_self x xs))
      (ih (fun y hy => h y (List.mem_cons_of_mem x hy)))

theorem shrink_interval_preserves {Key : Type} (env : Env Key) (key : Key)
    (t left right lp lc l0 : ℚ) (midpoint_shrink : Bool)
    (hl : left ≤ 0) (hr : 0 ≤ right)
    (ha0 : 0 ≤ env.uniform01 key) :
    xle (shrink_interval env key (XQ.fin t) (XQ.fin left) (XQ.fin right)
          (XQ.fin lp) (XQ.fin lc) (XQ.fin l0) midpoint_shrink).1
        (XQ.fin 0) = true ∧
    xle (XQ.fin 0)
        (shrink_interval env key (XQ.fin t) (XQ.fin left) (XQ.fin right)
          (XQ.fin lp) (XQ.fin lc) (XQ.fin l0) midpoint_shrink).2 = true := by
  have h1 : xlt (XQ.fin t) (XQ.fin 0) = decide (t < 0) := rfl
  have h2 : xlt (XQ.fin 0) (XQ.fin t) = decide (0 < t) := rfl
  unfold shrink_interval
  rw [h1, h2]
  cases midpoint_shrink with
  | false =>
    constructor
    · by_cases ht : t < 0
      · simp [ht, xle]
        linarith
      · simp [ht, xle]
        exact hl
    · by_cases ht : 0 < t
      · simp [ht, xle]
        linarith
      · simp [ht, xle]
        exact hr
  | true =>
    constructor
    · by_cases ht : t < 0
      · have ht2 : ¬ 0 < t := by linarith
        simp [ht, ht2, xmul, xle]
        nlinarith
      · by_cases ht2 : 0 < t <;> simp [ht, ht2, xle] <;> exact hl
    · by_cases ht : 0 < t
      · have ht2 : ¬ t < 0 := by linarith
        simp [ht, ht2, xmul, xle]
        nlinarith
      · by_cases ht2 : t < 0 <;> simp [ht, ht2, xle] <;> exact hr

/-- C5: Slice bracket invariant.  First part: the initial bounds computed by
`_slice_bounds` satisfy `left ≤ 0 ≤ right` for every point (in particular,
every point of the unit cube) and every direction.  Second part:
`_shrink_interval` preserves `left ≤ 0 ≤ right` at every shrink step for any
rejected `t ∈ [left, right]`, both with and without `midpoint_shrink`, the
shrink factor `alpha = uniform(key)` lying in `[0, 1)` as
`jax.random.uniform` guarantees. -/
theorem slice_bracket_invariant :
    (∀ (point_U0 direction : List XQ),
       xle (slice_bounds point_U0 direction).1 (XQ.fin 0) = true ∧
       xle (XQ.fin 0) (slice_bounds point_U0 direction).2 = true) ∧
    (∀ (Key : Type) (env : Env Key) (key : Key) (t left right lp lc l0 : ℚ)
       (midpoint_shrink : Bool),
       left ≤ 0 → 0 ≤ right → left ≤ t → t ≤ right →
       0 ≤ env.uniform01 key → env.uniform01 key < 1 →
       xle (shrink_interval env key (XQ.fin t) (XQ.fin left) (XQ.fin right)
             (XQ.fin lp) (XQ.fin lc) (XQ.fin l0) midpoint_shrink).1
           (XQ.fin 0) = true ∧
       xle (XQ.fin 0)
           (shrink_interval env key (XQ.fin t) (XQ.fin left) (XQ.fin right)
             (XQ.fin lp) (XQ.fin lc) (XQ.fin l0) midpoint_shrink).2 = true) := by
  constructor
  · intro point_U0 direction
    unfold slice_bounds
    constructor
    · apply xle_xmax_zero
      · apply foldr_xmax_nonpos
        intro x hx
        simp only [List.mem_map] at hx
        obtain ⟨t, ht, hx⟩ := hx
        rw [← hx]
        split_ifs with hc
        · exact hc
        · rfl
      · apply foldr_xmax_nonpos
        intro x hx
        simp only [List.mem_map] at hx
        obtain ⟨t, ht, hx⟩ := hx
        rw [← hx]
        split_ifs with hc
        · exact hc
        · rfl
    · apply xle_zero_xmin
      · apply foldr_xmin_nonneg
        intro x hx
        simp only [List.mem_map] at hx
        obtain ⟨t, ht, hx⟩ := hx
        rw [← hx]
        split_ifs with hc
        · exact hc
        · rfl
      · apply foldr_xmin_nonneg
        intro x hx
        simp only [List.mem_map] at hx
        obtain ⟨t, ht, hx⟩ := hx
        rw [← hx]
        split_ifs with hc
        · exact hc
        · rfl
  · intro Key env key t left right lp lc l0 midpoint_shrink hl hr hlt htr ha0 ha1
    exact shrink_interval_preserves env key t left right lp lc l0
      midpoint_shrink hl hr ha0

/-- Witness for C5 at a concrete input. -/
theorem slice_bracket_invariant_witness :
    ((-1 : ℚ) / 2 ≤ 0 ∧ (0 : ℚ) ≤ 1 / 2 ∧ (-1 : ℚ) / 2 ≤ -1 / 4 ∧
      (-1 : ℚ) / 4 ≤ 1 / 2 ∧ (0 : ℚ) ≤ testEnv.uniform01 0 ∧
      testEnv.uniform01 0 < 1) ∧
    (xle (shrink_interval testEnv 0 (XQ.fin (-1 / 4)) (XQ.fin (-1 / 2))
          (XQ.fin (1 / 2)) (XQ.fin (-3)) (XQ.fin 0) (XQ.fin 1) true).1
        (XQ.fin 0) = true ∧
     xle (XQ.fin 0)
        (shrink_interval testEnv 0 (XQ.fin (-1 / 4)) (XQ.fin (-1 / 2))
          (XQ.fin (1 / 2)) (XQ.fin (-3)) (XQ.fin 0) (XQ.fin 1) true).2 = true) :=
  ⟨by norm_num [testEnv], slice_bracket_invariant.2 ℕ testEnv 0 (-1 / 4)
    (-1 / 2) (1 / 2) (-3) 0 1 true (by norm_num) (by norm_num) (by norm_num)
    (by norm_num) (by norm_num [testEnv]) (by norm_num [testEnv])⟩

/-- The number of attempts `j ∈ {1, …, N}` at which the backoff test
`num_likelihood_evals > 1/efficiency_threshold` of
`MultiellipsoidalSampler.get_sample` fires; each such attempt subtracts
exactly `0.1` from the working constraint. -/
def relaxCount (efficiency_threshold : ℚ) (N : ℕ) : ℕ :=
  (List.range N).countP
    (fun (j : ℕ) => decide ((1 : ℚ) / efficiency_threshold < (j : ℚ) + 1))

theorem relaxCount_succ (eff : ℚ) (N : ℕ) :
    relaxCount eff (N + 1) =
      relaxCount eff N + (if (1 : ℚ) / eff < (N : ℚ) + 1 then 1 else 0) := by
  unfold relaxCount
  rw [List.range_succ, List.countP_append]
  simp only [List.countP_cons, List.countP_nil, Nat.zero_add, decide_eq_true_eq]

theorem xsub_fin_zero (a : XQ) : xsub a (XQ.fin 0) = a := by
  cases a <;> simp [xsub, xneg, xadd]

theorem xsub_xsub_fin (a : XQ) (p q : ℚ) :
    xsub (xsub a (XQ.fin p)) (XQ.fin q) = xsub a (XQ.fin (p + q)) := by
  cases a <;> simp [xsub, xneg, xadd] <;> ring

/-- C4: Backoff policy of the multi-ellipsoidal rejection sampler: for any
terminating run of `MultiellipsoidalSampler.get_sample`, the returned
sample's `log_L_constraint` field is the constraint the terminal acceptance
test actually used (first conjunct), and it equals the original threshold
lowered by exactly `0.1` for every attempt past `1/efficiency_threshold`
(second conjunct, via `relaxCount`). -/
theorem me_get_sample_backoff {Key : Type} (env : Env Key) (fuel : ℕ)
    (model : SliceModel) (efficiency_threshold : ℚ)
    (sample_multi_ellipsoid : Key → List XQ) (key : Key)
    (log_L_constraint : XQ) (s : MSample)
    (h : me_get_sample env fuel model efficiency_threshold
        sample_multi_ellipsoid key log_L_constraint = some s) :
    xlt s.log_L_constraint s.log_L = true ∧
    s.log_L_constraint = xsub log_L_constraint
      (XQ.fin ((relaxCount efficiency_threshold
          s.num_likelihood_evaluations : ℚ) / 10)) := by
  unfold me_get_sample at h
  rw [Option.map_eq_some'] at h
  obtain ⟨c, hc, hs⟩ := h
  have hdone := whileLoop_exit
    (fun st : MECarry Key => !st.done)
    (me_get_sample_body env model efficiency_threshold sample_multi_ellipsoid)
    fuel _ c hc
  have hdone2 : c.done = true := by simpa using hdone
  have hinv := whileLoop_invariant (fun st : MECarry Key => !st.done)
    (me_get_sample_body env model efficiency_threshold sample_multi_ellipsoid)
    (fun carry =>
      (carry.done = true → xlt carry.log_L_constraint carry.log_L = true) ∧
      carry.log_L_constraint = xsub log_L_constraint
        (XQ.fin ((relaxCount efficiency_threshold
            carry.num_likelihood_evals : ℚ) / 10)))
    ?_ fuel _ c ?_ hc
  · refine ⟨?_, ?_⟩
    · rw [← hs]
      exact hinv.1 hdone2
    · rw [← hs]
      exact hinv.2
  · intro x hx hcond
    refine ⟨fun hd => hd, ?_⟩
    show (me_get_sample_body env model efficiency_threshold
        sample_multi_ellipsoid x).log_L_constraint = _
    unfold me_get_sample_body
    simp only
    rw [hx.2]
    split_ifs with hrel
    · rw [xsub_xsub_fin, relaxCount_succ,
        if_pos (by push_cast at hrel ⊢; linarith)]
      push_cast
      ring_nf
    · rw [relaxCount_succ, if_neg (by push_cast at hrel ⊢; linarith)]
      simp
  · refine ⟨?_, ?_⟩
    · intro hfalse
      simp at hfalse
    · simp [relaxCount, xsub_fin_zero]

/-- Witness for C4 at a concrete input: efficiency threshold `1/2`, constant
likelihood `-5`, original constraint `0`; the run accepts at attempt 53
after 51 relaxations of exactly `0.1` each. -/
theorem me_get_sample_backoff_witness :
    xlt (XQ.fin (-51 / 10)) (XQ.fin (-5)) = true ∧
    (XQ.fin (-51 / 10) : XQ) = xsub (XQ.fin 0)
      (XQ.fin ((relaxCount (1 / 2) 53 : ℚ) / 10)) := by
  have h : me_get_sample testEnv 60 (constModel (XQ.fin (-5))) (1 / 2)
      (fun _ => [XQ.fin (1 / 4)]) 0 (XQ.fin 0) =
      some ⟨[XQ.fin (1 / 4)], XQ.fin (-51 / 10), XQ.fin (-5), 53, 0, true⟩ := by
    with_unfolding_all decide
  exact me_get_sample_backoff testEnv 60 (constModel (XQ.fin (-5))) (1 / 2)
    (fun _ => [XQ.fin (1 / 4)]) 0 (XQ.fin 0)
    ⟨[XQ.fin (1 / 4)], XQ.fin (-51 / 10), XQ.fin (-5), 53, 0, true⟩ h

theorem propose_op_eq_some {Key : Type} (env : Env Key) (eps : ℚ) (fuel : ℕ)
    (midpoint_shrink perfect gradient_slice : Bool) (log_L_constraint : XQ)
    (model : SliceModel) (st : Sample × ℕ) (key : Key) (out : Sample × ℕ)
    (h : propose_op env eps fuel midpoint_shrink perfect gradient_slice
        log_L_constraint model st key = some out) :
    ∃ carry a,
      new_proposal_carry env eps fuel key ⟨st.1.U_sample, st.1.log_L⟩
          midpoint_shrink perfect gradient_slice log_L_constraint model =
        some (carry, a) ∧
      out = (⟨carry.point_U, log_L_constraint, carry.log_L,
          carry.num_likelihood_evaluations + st.1.num_likelihood_evaluations⟩,
        st.2 + a) := by
  unfold propose_op new_proposal at h
  rw [Option.map_map, Option.map_eq_some'] at h
  obtain ⟨⟨carry, a⟩, hca, hout⟩ := h
  exact ⟨carry, a, hca, hout.symm⟩

theorem new_proposal_carry_exit {Key : Type} (env : Env Key) (eps : ℚ)
    (fuel : ℕ) (key : Key) (seed_point : SeedPoint)
    (midpoint_shrink perfect gradient_slice : Bool) (log_L_constraint : XQ)
    (model : SliceModel) (carry : SliceCarry Key) (a : ℕ)
    (h : new_proposal_carry env eps fuel key seed_point midpoint_shrink perfect
        gradient_slice log_L_constraint model = some (carry, a)) :
    proposal_cond eps log_L_constraint seed_point.log_L0 carry = false := by
  unfold new_proposal_carry at h
  rw [Option.bind_eq_some] at h
  obtain ⟨dlrn, hinit, hwl⟩ := h
  exact whileLoop_exit
    (fun st => proposal_cond eps log_L_constraint seed_point.log_L0 st.1)
    _ fuel _ (carry, a) hwl

/-- C3: Evaluation-count apportionment: writing `total` for the evaluation
counter accumulated over the `num_slices`-long chain (the final scan state's
`num_likelihood_evaluations`), the emitted terminal sample's count equals
`total − ⌊total/(num_phantom_save+1)⌋·num_phantom_save` and every retained
phantom sample's count equals `⌊total/(num_phantom_save+1)⌋` (`ℕ` division
is floor; the source's float division followed by `astype(int_type)` is
modelled as exact floor division). -/
theorem get_sample_from_seed_apportionment {Key : Type} (env : Env Key)
    (eps : ℚ) (fuel num_slices num_phantom_save : ℕ)
    (midpoint_shrink perfect gradient_slice : Bool) (model : SliceModel)
    (key : Key) (seed_point : SeedPoint) (log_L_constraint : XQ)
    (fs : Sample) (act : ℕ) (cum : List (Sample × ℕ))
    (h : cumulative_op_static
        (propose_op env eps fuel midpoint_shrink perfect gradient_slice
          log_L_constraint model)
        ((⟨seed_point.U0, log_L_constraint, seed_point.log_L0, 0⟩ : Sample), 0)
        (env.splitN key num_slices) = some ((fs, act), cum)) :
    ∃ terminal phantoms actual,
      get_sample_from_seed env eps fuel num_slices num_phantom_save
          midpoint_shrink perfect gradient_slice model key seed_point
          log_L_constraint = some (terminal, phantoms, actual) ∧
      terminal.num_likelihood_evaluations =
        fs.num_likelihood_evaluations -
          (fs.num_likelihood_evaluations / (num_phantom_save + 1)) *
            num_phantom_save ∧
      ∀ s ∈ phantoms,
        s.num_likelihood_evaluations =
          fs.num_likelihood_evaluations / (num_phantom_save + 1) := by
  have hge : get_sample_from_seed env eps fuel num_slices num_phantom_save
      midpoint_shrink perfect gradient_slice model key seed_point
      log_L_constraint = some
        ({ fs with
            num_likelihood_evaluations := fs.num_likelihood_evaluations -
              (fs.num_likelihood_evaluations / (num_phantom_save + 1)) *
                num_phantom_save },
         (((cum.map Prod.fst).take ((cum.map Prod.fst).length - 1)).drop
             ((cum.map Prod.fst).length - (num_phantom_save + 1))).map
           (fun s => { s with
             num_likelihood_evaluations :=
               fs.num_likelihood_evaluations / (num_phantom_save + 1) }),
         act) := by
    simp only [get_sample_from_seed]
    rw [h]
    rfl
  refine ⟨_, _, _, hge, rfl, ?_⟩
  intro s hs
  simp only [List.mem_map] at hs
  obtain ⟨s₀, hs₀, hrepl⟩ := hs
  rw [← hrepl]

theorem chain_step_data {Key : Type} (env : Env Key) (eps : ℚ) (fuel : ℕ)
    (midpoint_shrink perfect gradient_slice : Bool) (log_L_constraint : XQ)
    (model : SliceModel) (init : Sample) (keys : List Key)
    (fs : Sample) (act : ℕ) (cum : List (Sample × ℕ))
    (h : cumulative_op_static
        (propose_op env eps fuel midpoint_shrink perfect gradient_slice
          log_L_constraint model) (init, 0) keys = some ((fs, act), cum))
    (i : ℕ) (hi : i < cum.length) (hk : i < keys.length) :
    ∃ k sp carry a,
      keys[i]? = some k ∧
      (init :: cum.map Prod.fst)[i]? = some sp ∧
      new_proposal_carry env eps fuel k ⟨sp.U_sample, sp.log_L⟩
          midpoint_shrink perfect gradient_slice log_L_constraint model =
        some (carry, a) ∧
      (cum.get ⟨i, hi⟩).1.U_sample = carry.point_U ∧
      (cum.get ⟨i, hi⟩).1.log_L = carry.log_L := by
  have hstep := cumulative_op_static_step _ _ _ _ _ h i hi hk
  obtain ⟨carry, a, hca, hout⟩ := propose_op_eq_some env eps fuel
    midpoint_shrink perfect gradient_slice log_L_constraint model
    (((init, 0) :: cum).get ⟨i, Nat.lt_succ_of_lt hi⟩) (keys.get ⟨i, hk⟩)
    (cum.get ⟨i, hi⟩) hstep
  refine ⟨keys.get ⟨i, hk⟩, (((init, 0) :: cum).get ⟨i, Nat.lt_succ_of_lt hi⟩).1,
    carry, a, ?_, ?_, hca, ?_, ?_⟩
  · exact List.getElem?_eq_getElem hk
  · have hmap : init :: cum.map Prod.fst = ((init, 0) :: cum).map Prod.fst := by
      rw [List.map_cons]
    rw [hmap, List.getElem?_map, List.getElem?_eq_getElem (by simpa using Nat.lt_succ_of_lt hi)]
    rfl
  · rw [hout]
  · rw [hout]

/-- C7: Phantom retention: when `num_phantom_save = p < num_slices = n`,
exactly `p` phantom samples are returned; the `j`-th phantom is the chain
state produced by proposal `n − p + j` of the cumulative scan (`cum` is
0-indexed, so scan position `n − 1 − p + j`, ranging over the `p` most
recent pre-terminal states, never position `n − 1`); the terminal sample is
the final scan state (position `n − 1`), so the phantoms never include it. -/
theorem get_sample_from_seed_phantom_retention {Key : Type} (env : Env Key)
    (eps : ℚ) (fuel num_slices num_phantom_save : ℕ)
    (midpoint_shrink perfect gradient_slice : Bool) (model : SliceModel)
    (key : Key) (seed_point : SeedPoint) (log_L_constraint : XQ)
    (fs : Sample) (act : ℕ) (cum : List (Sample × ℕ))
    (hp : num_phantom_save < num_slices)
    (h : cumulative_op_static
        (propose_op env eps fuel midpoint_shrink perfect gradient_slice
          log_L_constraint model)
        ((⟨seed_point.U0, log_L_constraint, seed_point.log_L0, 0⟩ : Sample), 0)
        (env.splitN key num_slices) = some ((fs, act), cum)) :
    ∃ terminal phantoms actual,
      get_sample_from_seed env eps fuel num_slices num_phantom_save
          midpoint_shrink perfect gradient_slice model key seed_point
          log_L_constraint = some (terminal, phantoms, actual) ∧
      phantoms.length = num_phantom_save ∧
      (∀ j, j < num_phantom_save →
        ∃ sc, cum[num_slices - 1 - num_phantom_save + j]? = some sc ∧
          phantoms[j]? = some { sc.1 with
            num_likelihood_evaluations :=
              fs.num_likelihood_evaluations / (num_phantom_save + 1) }) ∧
      terminal = { fs with
        num_likelihood_evaluations := fs.num_likelihood_evaluations -
          (fs.num_likelihood_evaluations / (num_phantom_save + 1)) *
            num_phantom_save } := by
  have hlen : cum.length = num_slices := by
    rw [cumulative_op_static_length _ _ _ _ _ h, env.splitN_length]
  have hge : get_sample_from_seed env eps fuel num_slices num_phantom_save
      midpoint_shrink perfect gradient_slice model key seed_point
      log_L_constraint = some
        ({ fs with
            num_likelihood_evaluations := fs.num_likelihood_evaluations -
              (fs.num_likelihood_evaluations / (num_phantom_save + 1)) *
                num_phantom_save },
         (((cum.map Prod.fst).take ((cum.map Prod.fst).length - 1)).drop
             ((cum.map Prod.fst).length - (num_phantom_save + 1))).map
           (fun s => { s with
             num_likelihood_evaluations :=
               fs.num_likelihood_evaluations / (num_phantom_save + 1) }),
         act) := by
    simp only [get_sample_from_seed]
    rw [h]
    rfl
  refine ⟨_, _, _, hge, ?_, ?_, rfl⟩
  · simp only [List.length_map, List.length_drop, List.length_take, hlen]
    omega
  · intro j hj
    have hidx : num_slices - (num_phantom_save + 1) + j < num_slices - 1 := by
      omega
    have hidx2 : num_slices - (num_phantom_save + 1) + j < cum.length := by
      omega
    refine ⟨cum.get ⟨num_slices - (num_phantom_save + 1) + j, hidx2⟩, ?_, ?_⟩
    · have : num_slices - 1 - num_phantom_save + j =
        num_slices - (num_phantom_save + 1) + j := by omega
      rw [this, List.getElem?_eq_getElem hidx2]
      rfl
    · rw [List.getElem?_map, List.getElem?_drop, List.getElem?_take]
      simp only [List.length_map, hlen]
      rw [if_pos hidx, List.getElem?_map, List.getElem?_eq_getElem hidx2]
      rfl

theorem cumulative_op_static_final_get {S K : Type} (op : S → K → Option S)
    (init : S) (xs : List K) (fin : S) (cs : List S)
    (h : cumulative_op_static op init xs = some (fin, cs))
    (hne : 0 < cs.length) :
    fin = cs.get ⟨cs.length - 1, by omega⟩ := by
  have hfin := cumulative_op_static_final op init xs fin cs h
  have hcs : cs ≠ [] := List.ne_nil_of_length_pos hne
  rw [List.getLast_cons hcs] at hfin
  rw [hfin, List.getLast_eq_get]

theorem chain_output_disj {Key : Type} (env : Env Key) (eps : ℚ) (fuel : ℕ)
    (midpoint_shrink perfect gradient_slice : Bool) (log_L_constraint : XQ)
    (model : SliceModel) (init : Sample) (keys : List Key)
    (fs : Sample) (act : ℕ) (cum : List (Sample × ℕ))
    (h : cumulative_op_static
        (propose_op env eps fuel midpoint_shrink perfect gradient_slice
          log_L_constraint model) (init, 0) keys = some ((fs, act), cum))
    (i : ℕ) (hi : i < cum.length) (hk : i < keys.length) :
    ∃ k sp carry a,
      keys[i]? = some k ∧
      (init :: cum.map Prod.fst)[i]? = some sp ∧
      new_proposal_carry env eps fuel k ⟨sp.U_sample, sp.log_L⟩
          midpoint_shrink perfect gradient_slice log_L_constraint model =
        some (carry, a) ∧
      (cum.get ⟨i, hi⟩).1.U_sample = carry.point_U ∧
      (cum.get ⟨i, hi⟩).1.log_L = carry.log_L ∧
      (xlt log_L_constraint (cum.get ⟨i, hi⟩).1.log_L = true ∨
       (xeqb sp.log_L log_L_constraint = true ∧
         xeqb (cum.get ⟨i, hi⟩).1.log_L log_L_constraint = true) ∨
       xle (xsub carry.right carry.left) (XQ.fin (2 * eps)) = true) := by
  obtain ⟨k, sp, carry, a, hkey, hsp, hca, hU, hL⟩ :=
    chain_step_data env eps fuel midpoint_shrink perfect gradient_slice
      log_L_constraint model init keys fs act cum h i hi hk
  have hexit := new_proposal_carry_exit env eps fuel k
    ⟨sp.U_sample, sp.log_L⟩ midpoint_shrink perfect gradient_slice
    log_L_constraint model carry a hca
  simp only [proposal_cond, Bool.not_eq_false', Bool.or_eq_true,
    Bool.and_eq_true] at hexit
  refine ⟨k, sp, carry, a, hkey, hsp, hca, hU, hL, ?_⟩
  rcases hexit with (hclose | hsat) | hless
  · right; right
    exact hclose
  · left
    rw [hL]
    exact hsat
  · right; left
    rw [hL]
    exact hless

/-- C2 (amended): every sample emitted by
`UniDimSliceSampler.get_sample_from_seed` (the terminal sample and each
phantom) is the exit state of one of the chain's slice proposals, and that
proposal's shrink loop terminated with acceptance
(`log_L > log_L_constraint`), with the plateau tie-break with respect to
that step's own seed likelihood, **or with bracket collapse**
(`right − left ≤ 2·eps`), in which case `log_L ≤ log_L_constraint` is
possible.  The third exit arm is present in the source `cond` and is what
the original claim omits (see the counterexample). -/
theorem get_sample_from_seed_acceptance_amended {Key : Type} (env : Env Key)
    (eps : ℚ) (fuel num_slices num_phantom_save : ℕ)
    (midpoint_shrink perfect gradient_slice : Bool) (model : SliceModel)
    (key : Key) (seed_point : SeedPoint) (log_L_constraint : XQ)
    (fs : Sample) (act : ℕ) (cum : List (Sample × ℕ))
    (hn : 1 ≤ num_slices)
    (h : cumulative_op_static
        (propose_op env eps fuel midpoint_shrink perfect gradient_slice
          log_L_constraint model)
        ((⟨seed_point.U0, log_L_constraint, seed_point.log_L0, 0⟩ : Sample), 0)
        (env.splitN key num_slices) = some ((fs, act), cum)) :
    ∃ terminal phantoms actual,
      get_sample_from_seed env eps fuel num_slices num_phantom_save
          midpoint_shrink perfect gradient_slice model key seed_point
          log_L_constraint = some (terminal, phantoms, actual) ∧
      ∀ s, s = terminal ∨ s ∈ phantoms →
        ∃ (i : ℕ) (k : Key) (sp : Sample) (carry : SliceCarry Key) (a : ℕ),
          (env.splitN key num_slices)[i]? = some k ∧
          ((⟨seed_point.U0, log_L_constraint, seed_point.log_L0, 0⟩ : Sample) ::
              cum.map Prod.fst)[i]? = some sp ∧
          new_proposal_carry env eps fuel k ⟨sp.U_sample, sp.log_L⟩
              midpoint_shrink perfect gradient_slice log_L_constraint model =
            some (carry, a) ∧
          s.U_sample = carry.point_U ∧ s.log_L = carry.log_L ∧
          (xlt log_L_constraint s.log_L = true ∨
           (xeqb sp.log_L log_L_constraint = true ∧
             xeqb s.log_L log_L_constraint = true) ∨
           xle (xsub carry.right carry.left) (XQ.fin (2 * eps)) = true) := by
  have hlen : cum.length = num_slices := by
    rw [cumulative_op_static_length _ _ _ _ _ h, env.splitN_length]
  have hkeys : (env.splitN key num_slices).length = num_slices :=
    env.splitN_length key num_slices
  have hge : get_sample_from_seed env eps fuel num_slices num_phantom_save
      midpoint_shrink perfect gradient_slice model key seed_point
      log_L_constraint = some
        ({ fs with
            num_likelihood_evaluations := fs.num_likelihood_evaluations -
              (fs.num_likelihood_evaluations / (num_phantom_save + 1)) *
                num_phantom_save },
         (((cum.map Prod.fst).take ((cum.map Prod.fst).length - 1)).drop
             ((cum.map Prod.fst).length - (num_phantom_save + 1))).map
           (fun s => { s with
             num_likelihood_evaluations :=
               fs.num_likelihood_evaluations / (num_phantom_save + 1) }),
         act) := by
    simp only [get_sample_from_seed]
    rw [h]
    rfl
  refine ⟨_, _, _, hge, ?_⟩
  intro s hs
  rcases hs with hterm | hph
  · -- the terminal sample is the final scan state, at chain position n − 1
    have hi : num_slices - 1 < cum.length := by omega
    have hk : num_slices - 1 < (env.splitN key num_slices).length := by omega
    have hfs : (fs, act) = cum.get ⟨num_slices - 1, hi⟩ := by
      have h2 := cumulative_op_static_final_get _ _ _ _ _ h (by omega)
      rw [h2]
      exact congrArg cum.get (Fin.ext (by simp only [hlen]))
    obtain ⟨k, sp, carry, a, hkey, hsp, hca, hU, hL, hdisj⟩ :=
      chain_output_disj env eps fuel midpoint_shrink perfect gradient_slice
        log_L_constraint model _ _ fs act cum h (num_slices - 1) hi hk
    have hfsU : fs.U_sample = (cum.get ⟨num_slices - 1, hi⟩).1.U_sample := by
      rw [← hfs]
    have hfsL : fs.log_L = (cum.get ⟨num_slices - 1, hi⟩).1.log_L := by
      rw [← hfs]
    refine ⟨num_slices - 1, k, sp, carry, a, hkey, hsp, hca, ?_, ?_, ?_⟩
    · rw [hterm]
      show fs.U_sample = carry.point_U
      rw [hfsU, hU]
    · rw [hterm]
      show fs.log_L = carry.log_L
      rw [hfsL, hL]
    · rw [hterm]
      show xlt log_L_constraint fs.log_L = true ∨
        (_ = true ∧ xeqb fs.log_L log_L_constraint = true) ∨ _ = true
      rw [hfsL]
      exact hdisj
  · -- phantom samples are pre-terminal chain states
    simp only [List.mem_map] at hph
    obtain ⟨s₀, hs₀, hrepl⟩ := hph
    obtain ⟨j, hj, hjget⟩ := List.getElem_of_mem hs₀
    have hjq : (((cum.map Prod.fst).take ((cum.map Prod.fst).length - 1)).drop
        ((cum.map Prod.fst).length - (num_phantom_save + 1)))[j]? = some s₀ := by
      rw [List.getElem?_eq_getElem hj, hjget]
    have hjlt : (cum.map Prod.fst).length - (num_phantom_save + 1) + j <
        (cum.map Prod.fst).length - 1 := by
      have := hj
      simp only [List.length_drop, List.length_take] at this
      omega
    rw [List.getElem?_drop, List.getElem?_take, if_pos hjlt,
      List.getElem?_map] at hjq
    have hilt : (cum.map Prod.fst).length - (num_phantom_save + 1) + j <
        cum.length := by
      simp only [List.length_map] at hjlt ⊢
      omega
    rw [List.getElem?_eq_getElem hilt] at hjq
    have hsc : (cum.get ⟨(cum.map Prod.fst).length - (num_phantom_save + 1) + j,
        hilt⟩).1 = s₀ := by
      have := Option.some.inj hjq
      exact this
    have hk : (cum.map Prod.fst).length - (num_phantom_save + 1) + j <
        (env.splitN key num_slices).length := by
      simp only [List.length_map] at hilt
      omega
    obtain ⟨k, sp, carry, a, hkey, hsp, hca, hU, hL, hdisj⟩ :=
      chain_output_disj env eps fuel midpoint_shrink perfect gradient_slice
        log_L_constraint model _ _ fs act cum h
        ((cum.map Prod.fst).length - (num_phantom_save + 1) + j) hilt hk
    refine ⟨(cum.map Prod.fst).length - (num_phantom_save + 1) + j,
      k, sp, carry, a, hkey, hsp, hca, ?_, ?_, ?_⟩
    · rw [← hrepl]
      show s₀.U_sample = carry.point_U
      rw [← hsc, hU]
    · rw [← hrepl]
      show s₀.log_L = carry.log_L
      rw [← hsc, hL]
    · rw [← hrepl]
      show xlt log_L_constraint s₀.log_L = true ∨
        (_ = true ∧ xeqb s₀.log_L log_L_constraint = true) ∨ _ = true
      rw [← hsc]
      exact hdisj

/-- C1 (failing-input evaluation): at the valid configuration
`num_slices = 1`, `num_phantom_save = 0`, `midpoint_shrink = false`,
`perfect = true`, `gradient_slice = false`, seed `U0 = [1/2]`,
`log_L0 = 1`, threshold `0`, and a model of constant likelihood `1`, the
returned terminal count plus the sum of all phantom counts is `0`, while
exactly `1` `model.forward` evaluation was performed (the instrumented last
component): the evaluation made before entering the shrink loop of
`_new_proposal` is never counted. -/
theorem get_sample_from_seed_eval_count_failing :
    (get_sample_from_seed testEnv (1 / 8388608) 50 1 0 false true false
        (constModel (XQ.fin 1)) 0 ⟨[XQ.fin (1 / 2)], XQ.fin 1⟩ (XQ.fin 0)).map
      (fun r => (r.1.num_likelihood_evaluations +
        (r.2.1.map Sample.num_likelihood_evaluations).sum, r.2.2)) =
      some (0, 1) := by
  with_unfolding_all decide

/-- C2 (counterexample): with a model of constant likelihood `-1`, threshold
`0`, seed likelihood `1` (so no plateau tie-break applies), the terminal
sample emitted after bracket collapse has `log_L = -1 ≤ 0`: the first
component checks `log_L > log_L_constraint` (false), the second checks the
plateau tie-break (false). -/
theorem get_sample_from_seed_acceptance_counterexample :
    (get_sample_from_seed testEnv (1 / 8388608) 200 1 0 false true false
        (constModel (XQ.fin (-1))) 0 ⟨[XQ.fin (1 / 2)], XQ.fin 1⟩ (XQ.fin 0)).map
      (fun r => (xlt (XQ.fin 0) r.1.log_L,
        xeqb (XQ.fin 1) (XQ.fin 0) && xeqb r.1.log_L (XQ.fin 0))) =
      some (false, false) := by
  with_unfolding_all decide

/-- Witness for the amended C2 at a concrete input. -/
theorem get_sample_from_seed_acceptance_amended_witness :
    ∃ terminal phantoms actual,
      get_sample_from_seed testEnv (1 / 8388608) 50 1 0 false true false
          (constModel (XQ.fin 1)) 0 ⟨[XQ.fin (1 / 2)], XQ.fin 1⟩ (XQ.fin 0) =
        some (terminal, phantoms, actual) ∧
      ∀ s, s = terminal ∨ s ∈ phantoms →
        ∃ (i : ℕ) (k : ℕ) (sp : Sample) (carry : SliceCarry ℕ) (a : ℕ),
          (testEnv.splitN 0 1)[i]? = some k ∧
          ((⟨(⟨[XQ.fin (1 / 2)], XQ.fin 1⟩ : SeedPoint).U0, XQ.fin 0,
              (⟨[XQ.fin (1 / 2)], XQ.fin 1⟩ : SeedPoint).log_L0, 0⟩ : Sample) ::
            ([((⟨[XQ.fin (2 / 5)], XQ.fin 0, XQ.fin 1, 0⟩ : Sample), 1)]).map
              Prod.fst)[i]? = some sp ∧
          new_proposal_carry testEnv (1 / 8388608) 50 k
              ⟨sp.U_sample, sp.log_L⟩ false true false (XQ.fin 0)
              (constModel (XQ.fin 1)) = some (carry, a) ∧
          s.U_sample = carry.point_U ∧ s.log_L = carry.log_L ∧
          (xlt (XQ.fin 0) s.log_L = true ∨
           (xeqb sp.log_L (XQ.fin 0) = true ∧
             xeqb s.log_L (XQ.fin 0) = true) ∨
           xle (xsub carry.right carry.left)
             (XQ.fin (2 * (1 / 8388608))) = true) :=
  get_sample_from_seed_acceptance_amended testEnv (1 / 8388608) 50 1 0
    false true false (constModel (XQ.fin 1)) 0 ⟨[XQ.fin (1 / 2)], XQ.fin 1⟩
    (XQ.fin 0) ⟨[XQ.fin (2 / 5)], XQ.fin 0, XQ.fin 1, 0⟩ 1
    [((⟨[XQ.fin (2 / 5)], XQ.fin 0, XQ.fin 1, 0⟩ : Sample), 1)]
    (by norm_num) (by with_unfolding_all decide)

/-- Witness for C3 at a concrete input (`num_slices = 2`,
`num_phantom_save = 1`). -/
theorem get_sample_from_seed_apportionment_witness :
    ∃ terminal phantoms actual,
      get_sample_from_seed testEnv (1 / 8388608) 50 2 1 false true false
          (constModel (XQ.fin 1)) 0 ⟨[XQ.fin (1 / 2)], XQ.fin 1⟩ (XQ.fin 0) =
        some (terminal, phantoms, actual) ∧
      terminal.num_likelihood_evaluations = 0 - 0 / (1 + 1) * 1 ∧
      ∀ s ∈ phantoms, s.num_likelihood_evaluations = 0 / (1 + 1) :=
  get_sample_from_seed_apportionment testEnv (1 / 8388608) 50 2 1 false true
    false (constModel (XQ.fin 1)) 0 ⟨[XQ.fin (1 / 2)], XQ.fin 1⟩ (XQ.fin 0)
    ⟨[XQ.fin (2 / 5)], XQ.fin 0, XQ.fin 1, 0⟩ 2
    [((⟨[XQ.fin (2 / 5)], XQ.fin 0, XQ.fin 1, 0⟩ : Sample), 1),
     ((⟨[XQ.fin (2 / 5)], XQ.fin 0, XQ.fin 1, 0⟩ : Sample), 2)]
    (by with_unfolding_all decide)

/-- Witness for C7 at a concrete input (`num_slices = 3`,
`num_phantom_save = 1`). -/
theorem get_sample_from_seed_phantom_retention_witness :
    ∃ terminal phantoms actual,
      get_sample_from_seed testEnv (1 / 8388608) 50 3 1 false true false
          (constModel (XQ.fin 1)) 0 ⟨[XQ.fin (1 / 2)], XQ.fin 1⟩ (XQ.fin 0) =
        some (terminal, phantoms, actual) ∧
      phantoms.length = 1 ∧
      (∀ j, j < 1 →
        ∃ sc, ([((⟨[XQ.fin (2 / 5)], XQ.fin 0, XQ.fin 1, 0⟩ : Sample), 1),
            ((⟨[XQ.fin (2 / 5)], XQ.fin 0, XQ.fin 1, 0⟩ : Sample), 2),
            ((⟨[XQ.fin (2 / 5)], XQ.fin 0, XQ.fin 1, 0⟩ : Sample), 3)])[3 - 1 - 1 + j]? =
            some sc ∧
          phantoms[j]? = some { sc.1 with
            num_likelihood_evaluations := 0 / (1 + 1) }) ∧
      terminal = { (⟨[XQ.fin (2 / 5)], XQ.fin 0, XQ.fin 1, 0⟩ : Sample) with
        num_likelihood_evaluations := 0 - 0 / (1 + 1) * 1 } :=
  get_sample_from_seed_phantom_retention testEnv (1 / 8388608) 50 3 1 false
    true false (constModel (XQ.fin 1)) 0 ⟨[XQ.fin (1 / 2)], XQ.fin 1⟩
    (XQ.fin 0) ⟨[XQ.fin (2 / 5)], XQ.fin 0, XQ.fin 1, 0⟩ 3
    [((⟨[XQ.fin (2 / 5)], XQ.fin 0, XQ.fin 1, 0⟩ : Sample), 1),
     ((⟨[XQ.fin (2 / 5)], XQ.fin 0, XQ.fin 1, 0⟩ : Sample), 2),
     ((⟨[XQ.fin (2 / 5)], XQ.fin 0, XQ.fin 1, 0⟩ : Sample), 3)]
    (by norm_num) (by with_unfolding_all decide)
